import Mathlib

/-!
Verification development for the browser code-editor repository.

The definitions below are a shallow embedding of the repository's
TypeScript source:

* the `execute-code` serverless function (`supabase/functions/ai-copilot`
  bundle): language-id mapping, submission, the fixed-interval poll loop
  with its 10-second ceiling, verdict normalization, and the catch-all
  error response;
* the editor shell (`src/components/CodeEditor.tsx`): file selection,
  tab closing, and content-edit propagation over the in-memory state;
* the file-tree builder (`FileExplorer`'s `buildTree`): flat path list to
  a sorted display hierarchy, hiding `/.keep` marker files.

JavaScript `x || d` on possibly-missing values is modelled explicitly:
the value is an `Option`, and a present-but-falsy value (empty string,
zero) also selects the default, exactly as in the source.
-/

namespace SwiftSyntax

/-- JS `x || d` for an optional string: `undefined`/`null` and the empty
string (both falsy) select the default. -/
def jsOrStr (x : Option String) (d : String) : String :=
  match x with
  | none => d
  | some s => if s = "" then d else s

/-- JS `x || d` for an optional number: `undefined`/`null` and `0` (falsy)
select the default. -/
def jsOrNat (x : Option Nat) (d : Nat) : Nat :=
  match x with
  | none => d
  | some n => if n = 0 then d else n

/-- JS truthiness of an optional string (`undefined` and `""` are falsy). -/
def jsTruthyStr (x : Option String) : Bool :=
  match x with
  | none => false
  | some s => s ≠ ""

/-! ### Language-id table (`LANGUAGE_MAP` in the execute-code function) -/

/-- The own entries of the `LANGUAGE_MAP` object literal: `none` for keys
the literal itself does not carry.  JS bracket access additionally
consults the prototype chain; that full semantics is
`LANGUAGE_MAP_bracket` below. -/
def LANGUAGE_MAP (key : String) : Option Nat :=
  if key = "python" then some 71
  else if key = "javascript" then some 63
  else if key = "typescript" then some 74
  else if key = "cpp" then some 54
  else if key = "c" then some 50
  else if key = "java" then some 62
  else if key = "csharp" then some 51
  else if key = "php" then some 68
  else if key = "ruby" then some 72
  else if key = "go" then some 60
  else if key = "rust" then some 73
  else if key = "plaintext" then some 63
  else none

/-- `LANGUAGE_MAP[language] || LANGUAGE_MAP.javascript`, restricted to
numeric results.  This is the value the handler sends whenever `language`
is not an `Object.prototype` member name; on those names bracket access
hits a truthy inherited value instead (see `languageIdValue`, and the
agreement conjunct of the C1 theorem). -/
def languageIdOf (language : String) : Nat :=
  jsOrNat (LANGUAGE_MAP language) ((LANGUAGE_MAP "javascript").getD 0)

/-- Member names of `Object.prototype`: bracket access on an object
literal reaches these through the prototype chain, yielding a truthy
value (a function, or for the `__proto__` accessor the prototype object
itself). -/
def objectPrototypeKeys : List String :=
  ["constructor", "hasOwnProperty", "isPrototypeOf", "propertyIsEnumerable",
   "toLocaleString", "toString", "valueOf", "__proto__",
   "__defineGetter__", "__defineSetter__", "__lookupGetter__",
   "__lookupSetter__"]

/-- Result of JS bracket access on the `LANGUAGE_MAP` literal: an own
numeric entry, a truthy value inherited from `Object.prototype`, or
`undefined`. -/
inductive JsBracketValue where
  | num (n : Nat)
  | inherited (name : String)
  | undefined
deriving DecidableEq, Repr

/-- `LANGUAGE_MAP[key]` with prototype-chain semantics: own keys first,
then the inherited `Object.prototype` members, else `undefined`. -/
def LANGUAGE_MAP_bracket (key : String) : JsBracketValue :=
  match LANGUAGE_MAP key with
  | some n => JsBracketValue.num n
  | none =>
      if key ∈ objectPrototypeKeys then JsBracketValue.inherited key
      else JsBracketValue.undefined

/-- JS truthiness of a bracket-access result: a number is falsy only at
0, an inherited function or object is truthy, `undefined` is falsy. -/
def jsTruthyBracket : JsBracketValue → Bool
  | JsBracketValue.num n => n ≠ 0
  | JsBracketValue.inherited _ => true
  | JsBracketValue.undefined => false

/-- `LANGUAGE_MAP[language] || LANGUAGE_MAP.javascript` under full JS
semantics: a truthy bracket value is kept, anything falsy falls back to
the `javascript` entry. -/
def languageIdValue (language : String) : JsBracketValue :=
  if jsTruthyBracket (LANGUAGE_MAP_bracket language) then
    LANGUAGE_MAP_bracket language
  else LANGUAGE_MAP_bracket "javascript"

/-- The eleven language names of the spec's fixed table (the table also
carries the `plaintext` alias for the javascript default). -/
def supportedLanguages : List String :=
  ["python", "javascript", "typescript", "cpp", "c", "java",
   "csharp", "php", "ruby", "go", "rust"]

/-! ### Gateway responses and verdict normalization -/

/-- `status` object of a gateway poll response. -/
structure GatewayStatus where
  id : Nat
  description : String
deriving DecidableEq, Repr

/-- JSON body of one gateway poll response; the optional fields may be
absent (or `null`, which the source treats identically via `||`). -/
structure PollResult where
  status : GatewayStatus
  stdout : Option String
  stderr : Option String
  compile_output : Option String
  time : Option String
  memory : Option Nat
deriving DecidableEq, Repr

/-- The normalized verdict body returned on the success path. -/
structure Verdict where
  stdout : String
  stderr : String
  compile_output : String
  time : String
  memory : Nat
  statusDescription : String
deriving DecidableEq, Repr

/-- The terminal-status response body built by the execute-code function:
each optional field defaulted with JS `||`. -/
def normalizeVerdict (r : PollResult) : Verdict :=
  { stdout := jsOrStr r.stdout ""
    stderr := jsOrStr r.stderr ""
    compile_output := jsOrStr r.compile_output ""
    time := jsOrStr r.time "0"
    memory := jsOrNat r.memory 0
    statusDescription := r.status.description }

/-- Body of the catch-all 500 response of the execute-code function. -/
structure ErrorResponse where
  error : String
  stderr : String
  statusDescription : String
deriving DecidableEq, Repr

/-- The catch handler's response for a thrown error message (all thrown
messages in the function are nonempty, so the `||` fallbacks are inert). -/
def errorResponse (msg : String) : ErrorResponse :=
  { error := msg
    stderr := "Execution failed: " ++ msg
    statusDescription := "Runtime Error" }

/-- A network call made by the execute-code function. -/
inductive NetworkCall where
  | submit (code : String) (languageId : Nat)
  | poll (token : String) (index : Nat)
deriving DecidableEq, Repr

/-- Environment of one invocation: credential, gateway behaviour at submit
time, and the gateway's answer (and fetch latency in ms) for each poll. -/
structure Env where
  rapidApiKey : Option String
  submissionOk : Bool
  submissionStatus : Nat
  token : String
  pollOk : Nat → Bool
  pollHttpStatus : Nat → Nat
  pollResult : Nat → PollResult
  pollFetchTime : Nat → Nat

/-- Overall response of the execute-code function: the 200 verdict body or
the 500 error body. -/
inductive RunResponse where
  | success (v : Verdict)
  | failure (e : ErrorResponse)
deriving DecidableEq, Repr

/-- The poll loop (`while (Date.now() - startTime < timeout)`), with
`elapsed` the wall-clock milliseconds consumed when the condition is
checked and `i` the index of the next poll.  Each non-terminal iteration
consumes the fetch latency plus the fixed 1000 ms sleep.  On success it
returns the terminal poll body together with the number of sleeps taken
(`i` of the terminal poll); errors carry the thrown message.  The second
component records the poll requests issued. -/
def pollLoop (env : Env) (token : String) (elapsed : Nat) (i : Nat) :
    Except String (PollResult × Nat) × List NetworkCall :=
  if _h : elapsed < 10000 then
    if env.pollOk i then
      let r := env.pollResult i
      if 3 ≤ r.status.id then
        (Except.ok (r, i), [NetworkCall.poll token i])
      else
        let rest := pollLoop env token (elapsed + env.pollFetchTime i + 1000) (i + 1)
        (rest.1, NetworkCall.poll token i :: rest.2)
    else
      (Except.error ("Result fetch failed: " ++ toString (env.pollHttpStatus i)),
       [NetworkCall.poll token i])
  else
    (Except.error "Execution timeout", [])
termination_by 10000 - elapsed
decreasing_by omega

/-- The execute-code request handler: language mapping, credential check,
submission, poll loop, normalization; every thrown error lands in the
catch handler's `errorResponse`.  Returns the response body and the list
of network calls performed, in order. -/
def executeCode (env : Env) (code : String) (language : String) :
    RunResponse × List NetworkCall :=
  let languageId := languageIdOf language
  if jsTruthyStr env.rapidApiKey then
    if env.submissionOk then
      let polled := pollLoop env env.token 0 0
      match polled.1 with
      | Except.ok (r, _) =>
          (RunResponse.success (normalizeVerdict r),
           NetworkCall.submit code languageId :: polled.2)
      | Except.error msg =>
          (RunResponse.failure (errorResponse msg),
           NetworkCall.submit code languageId :: polled.2)
    else
      (RunResponse.failure
        (errorResponse ("Submission failed: " ++ toString env.submissionStatus)),
       [NetworkCall.submit code languageId])
  else
    (RunResponse.failure (errorResponse "RAPIDAPI_KEY not configured"), [])

/-! ### Editor shell (`CodeEditor.tsx`) -/

/-- `CodeFile` interface of the editor shell. -/
structure CodeFile where
  id : String
  name : String
  content : String
  language : String
  path : String
deriving DecidableEq, Repr

/-- The editor shell state touched by the tab and edit handlers. -/
structure EditorState where
  files : List CodeFile
  activeFile : Option CodeFile
  openTabs : List CodeFile
deriving DecidableEq, Repr

/-- `handleFileSelect`: make the file active; append a tab only when no
open tab carries its id. -/
def handleFileSelect (s : EditorState) (file : CodeFile) : EditorState :=
  { s with
    activeFile := some file
    openTabs :=
      if (s.openTabs.find? (fun tab => tab.id = file.id)).isSome then s.openTabs
      else s.openTabs ++ [file] }

/-- `handleTabClose`: drop every tab with the closed id; when the active
file was the closed one, fall back to the last remaining tab (or none). -/
def handleTabClose (s : EditorState) (fileId : String) : EditorState :=
  let newTabs := s.openTabs.filter (fun tab => tab.id ≠ fileId)
  { s with
    openTabs := newTabs
    activeFile :=
      match s.activeFile with
      | some f =>
          if f.id = fileId then
            (if newTabs.length > 0 then newTabs.getLast? else none)
          else some f
      | none => none }

/-- `handleEditorChange`: with an active file and a defined value, replace
the content of the active file and of every same-id entry of the file list
and the open-tab list. -/
def handleEditorChange (s : EditorState) (value : Option String) : EditorState :=
  match s.activeFile, value with
  | some active, some v =>
      let updatedFile := { active with content := v }
      { files := s.files.map
          (fun file => if file.id = active.id then updatedFile else file)
        activeFile := some updatedFile
        openTabs := s.openTabs.map
          (fun tab => if tab.id = active.id then updatedFile else tab) }
  | _, _ => s

/-- Client-side `ExecutionResult` shape rendered by the output panel. -/
structure ExecutionResult where
  stdout : Option String := none
  stderr : Option String := none
  compile_output : Option String := none
  time : Option String := none
  memory : Option Nat := none
  statusDescription : Option String := none
deriving DecidableEq, Repr

/-- The output set by `handleRunCode`: the invoke payload on success, and
on any thrown error the verdict-shaped fallback of the catch branch. -/
def handleRunCodeOutput (r : Except String ExecutionResult) : ExecutionResult :=
  match r with
  | Except.ok data => data
  | Except.error msg =>
      { stderr := some ("Execution failed: " ++ msg)
        statusDescription := some "Runtime Error" }

/-! ### Concrete fixtures used by the witnesses -/

/-- A gateway that always answers "still running". -/
def timeoutEnv : Env :=
  { rapidApiKey := some "key"
    submissionOk := true
    submissionStatus := 201
    token := "T"
    pollOk := fun _ => true
    pollHttpStatus := fun _ => 200
    pollResult := fun _ => ⟨⟨1, "In Queue"⟩, none, none, none, none, none⟩
    pollFetchTime := fun _ => 0 }

/-- An environment with no RAPIDAPI_KEY configured. -/
def noKeyEnv : Env :=
  { rapidApiKey := none
    submissionOk := true
    submissionStatus := 201
    token := "T"
    pollOk := fun _ => true
    pollHttpStatus := fun _ => 200
    pollResult := fun _ => ⟨⟨3, "Accepted"⟩, none, none, none, none, none⟩
    pollFetchTime := fun _ => 0 }

/-- First poll of the §8 scenario: still queued. -/
def scenarioPoll0 : PollResult := ⟨⟨1, "In Queue"⟩, none, none, none, none, none⟩

/-- Second poll of the §8 scenario: accepted with output. -/
def scenarioPoll1 : PollResult :=
  ⟨⟨3, "Accepted"⟩, some "Hello, World!\n", none, none, some "0.02", some 3328⟩

/-- Environment of the §8 scenario: token `T1`, queued on the first poll,
terminal on the second. -/
def scenarioEnv : Env :=
  { rapidApiKey := some "key"
    submissionOk := true
    submissionStatus := 201
    token := "T1"
    pollOk := fun _ => true
    pollHttpStatus := fun _ => 200
    pollResult := fun i => if i = 0 then scenarioPoll0 else scenarioPoll1
    pollFetchTime := fun _ => 0 }

/-- Tab fixture A. -/
def tabA : CodeFile := ⟨"idA", "a.py", "print(1)", "python", "/a.py"⟩

/-- Tab fixture B. -/
def tabB : CodeFile := ⟨"idB", "b.py", "print(2)", "python", "/b.py"⟩

/-- Tab fixture C. -/
def tabC : CodeFile := ⟨"idC", "c.py", "print(3)", "python", "/c.py"⟩

/-- Three open tabs, the third (most recent) active. -/
def threeTabState : EditorState :=
  { files := [tabA, tabB, tabC], activeFile := some tabC
    openTabs := [tabA, tabB, tabC] }

/-- A single open tab, active. -/
def singleTabState : EditorState :=
  { files := [tabC], activeFile := some tabC, openTabs := [tabC] }

/-- Editing scenario: two files, the first open and active. -/
def editScenario : EditorState :=
  { files := [tabA, tabB], activeFile := some tabA, openTabs := [tabA] }

/-! ### File-tree builder (`FileExplorer.buildTree`) -/

/-- A node of the display tree: folders carry children, file leaves carry
their `CodeFile`. -/
inductive TreeNode where
  | folder (name : String) (path : String) (children : List TreeNode)
  | file (name : String) (path : String) (f : CodeFile)
deriving Repr

/-- Strip one leading slash, as the `replace` on `f.path` does. -/
def stripLeadingSlash (p : String) : String :=
  if p.startsWith "/" then p.drop 1 else p

/-- `basename`: strip one trailing slash, split on slashes, last segment. -/
def basename (p : String) : String :=
  ((if p.endsWith "/" then p.dropRight 1 else p).splitOn "/").getLastD ""

/-- JS `String.prototype.endsWith`, expressed on the character sequence
(kept explicit so concrete instances evaluate). -/
def strEndsWith (p suffix : String) : Bool :=
  suffix.data.isSuffixOf p.data

/-- The folder chain of a file's directory.  `ensureFolder` normalizes the
`dirname` string (strip edge slashes, collapse duplicate slashes), which
makes the chain exactly the nonempty slash-separated segments. -/
def folderSegments (full : String) : List String :=
  ((full.splitOn "/").dropLast).filter (fun seg => seg ≠ "")

/-- Locate the folder named `seg` in a children list (`folderMap` keys
folders by their unique normalized path, one per parent-and-name): the
nodes before it, its stored path and children, and the nodes after it. -/
def splitAtFolder (seg : String) :
    List TreeNode → Option (List TreeNode × String × List TreeNode × List TreeNode)
  | [] => none
  | TreeNode.folder n p cs :: rest =>
      if n = seg then some ([], p, cs, rest)
      else
        match splitAtFolder seg rest with
        | some (pre, p2, cs2, post) =>
            some (TreeNode.folder n p cs :: pre, p2, cs2, post)
        | none => none
  | TreeNode.file n p f :: rest =>
      match splitAtFolder seg rest with
      | some (pre, p2, cs2, post) =>
          some (TreeNode.file n p f :: pre, p2, cs2, post)
      | none => none

/-- Insert a file node below its folder-segment chain.  An existing folder
keeps its place; a missing folder is appended at the end of its parent's
children, exactly as `ensureFolder` pushes newly created nodes. -/
def insertPath (fn : TreeNode) : List String → String → List TreeNode → List TreeNode
  | [], _, children => children ++ [fn]
  | seg :: rest, curPath, children =>
      let childPath := (if curPath = "/" then "" else curPath) ++ "/" ++ seg
      match splitAtFolder seg children with
      | some (pre, p, cs, post) =>
          pre ++ TreeNode.folder seg p (insertPath fn rest childPath cs) :: post
      | none =>
          children ++ [TreeNode.folder seg childPath (insertPath fn rest childPath [])]

/-- One iteration of the file loop of `buildTree`: placeholder files whose
path ends in `/.keep` are skipped; every other file is inserted below its
directory chain. -/
def addFile (children : List TreeNode) (f : CodeFile) : List TreeNode :=
  if strEndsWith f.path "/.keep" then children
  else
    let full := stripLeadingSlash f.path
    insertPath (TreeNode.file (basename full) ("/" ++ full) f)
      (folderSegments full) "/" children

/-- Rank used by the sort comparator: folders strictly before files. -/
def nodeRank : TreeNode → Nat
  | TreeNode.folder .. => 0
  | TreeNode.file .. => 1

/-- Display name of a node. -/
def nodeName : TreeNode → String
  | TreeNode.folder n .. => n
  | TreeNode.file n .. => n

/-- The comparator of `sortNode` as a relation: `a` sorts no later than
`b` when its rank is smaller (folder before file), or the ranks agree and
its name is not after (`localeCompare` modelled by the string order). -/
def NodeLe (a b : TreeNode) : Prop :=
  nodeRank a < nodeRank b ∨ (nodeRank a = nodeRank b ∧ nodeName a ≤ nodeName b)

instance : DecidableRel NodeLe := fun a b => by
  unfold NodeLe
  infer_instance

instance : IsTotal TreeNode NodeLe :=
  ⟨fun a b => by
    unfold NodeLe
    rcases Nat.lt_trichotomy (nodeRank a) (nodeRank b) with h | h | h
    · exact Or.inl (Or.inl h)
    · rcases le_total (nodeName a) (nodeName b) with hn | hn
      · exact Or.inl (Or.inr ⟨h, hn⟩)
      · exact Or.inr (Or.inr ⟨h.symm, hn⟩)
    · exact Or.inr (Or.inl h)⟩

instance : IsTrans TreeNode NodeLe :=
  ⟨fun a b c hab hbc => by
    unfold NodeLe at *
    rcases hab with h1 | ⟨h1, h1n⟩ <;> rcases hbc with h2 | ⟨h2, h2n⟩
    · exact Or.inl (by omega)
    · exact Or.inl (by omega)
    · exact Or.inl (by omega)
    · exact Or.inr ⟨by omega, le_trans h1n h2n⟩⟩

/-- `sortNode`, carried along children lists: every folder's children are
sorted by the comparator, recursively.  (The source sorts a level in place
and then recurses into the sorted children; sorting and recursing act on
disjoint data, so applying them in either order builds the same tree.) -/
def sortNodes : List TreeNode → List TreeNode
  | [] => []
  | TreeNode.file n p f :: rest => TreeNode.file n p f :: sortNodes rest
  | TreeNode.folder n p cs :: rest =>
      TreeNode.folder n p (List.insertionSort NodeLe (sortNodes cs)) :: sortNodes rest
termination_by l => sizeOf l
decreasing_by all_goals (simp_wf; try omega)

/-- `buildTree`: fold the flat file list into the root's children, then
sort every level. -/
def buildTree (allFiles : List CodeFile) : TreeNode :=
  TreeNode.folder "" "/"
    (List.insertionSort NodeLe (sortNodes (allFiles.foldl addFile [])))

/-- The file leaf carrying `f` occurs somewhere in the tree. -/
inductive FileNodeIn (f : CodeFile) : TreeNode → Prop where
  | here (n p : String) : FileNodeIn f (TreeNode.file n p f)
  | there (n p : String) (cs : List TreeNode) (c : TreeNode)
      (hc : c ∈ cs) (h : FileNodeIn f c) : FileNodeIn f (TreeNode.folder n p cs)

/-- Every children list of the tree is sorted by the comparator. -/
inductive ChildrenSorted : TreeNode → Prop where
  | file (n p : String) (f : CodeFile) : ChildrenSorted (TreeNode.file n p f)
  | folder (n p : String) (cs : List TreeNode)
      (hs : List.Sorted NodeLe cs)
      (hc : ∀ c ∈ cs, ChildrenSorted c) : ChildrenSorted (TreeNode.folder n p cs)

/-- A `.keep` placeholder file. -/
def keepFile : CodeFile := ⟨"idK", ".keep", "", "plaintext", "/docs/.keep"⟩

/-- An ordinary file at the root. -/
def mainFile : CodeFile := ⟨"idM", "main.py", "print(0)", "python", "/main.py"⟩

end SwiftSyntax

open SwiftSyntax

/-- Counterexample for C1 as stated: "constructor" is outside the table,
yet bracket access reaches `Object.prototype.constructor`, a truthy
inherited value, so the `||` keeps it and never falls back to the
javascript default 63. -/
theorem C1_proto_counterexample :
    "constructor" ∉ supportedLanguages ∧
    languageIdValue "constructor" = JsBracketValue.inherited "constructor" ∧
    JsBracketValue.inherited "constructor" ≠ JsBracketValue.num 63 :=
  ⟨by decide, by decide, by decide⟩

/-- C1 (amended): the language lookup reproduces the fixed table on the
eleven supported names.  For a string outside the table the JS bracket
access consults the prototype chain: a name that is not an
`Object.prototype` member reads `undefined` and falls back to 63, the
javascript default, while an `Object.prototype` member name yields the
truthy inherited value, which the `||` keeps instead of the default.
Away from prototype member names the bracket model agrees with the
numeric `languageIdOf` used by the handler embedding. -/
theorem C1_language_map_proto (s : String) (hs : s ∉ supportedLanguages) :
    languageIdValue "python" = JsBracketValue.num 71 ∧
    languageIdValue "javascript" = JsBracketValue.num 63 ∧
    languageIdValue "typescript" = JsBracketValue.num 74 ∧
    languageIdValue "cpp" = JsBracketValue.num 54 ∧
    languageIdValue "c" = JsBracketValue.num 50 ∧
    languageIdValue "java" = JsBracketValue.num 62 ∧
    languageIdValue "csharp" = JsBracketValue.num 51 ∧
    languageIdValue "php" = JsBracketValue.num 68 ∧
    languageIdValue "ruby" = JsBracketValue.num 72 ∧
    languageIdValue "go" = JsBracketValue.num 60 ∧
    languageIdValue "rust" = JsBracketValue.num 73 ∧
    (s ∉ objectPrototypeKeys → languageIdValue s = JsBracketValue.num 63) ∧
    (s ∈ objectPrototypeKeys →
      languageIdValue s = JsBracketValue.inherited s) ∧
    (s ∉ objectPrototypeKeys →
      languageIdValue s = JsBracketValue.num (languageIdOf s)) := by
  simp only [supportedLanguages, List.mem_cons, List.not_mem_nil, or_false,
    not_or] at hs
  obtain ⟨h1, h2, h3, h4, h5, h6, h7, h8, h9, h10, h11⟩ := hs
  have hmap : LANGUAGE_MAP s = if s = "plaintext" then some 63 else none := by
    simp only [LANGUAGE_MAP, h1, h2, h3, h4, h5, h6, h7, h8, h9, h10, h11,
      if_false]
  refine ⟨by decide, by decide, by decide, by decide, by decide, by decide,
    by decide, by decide, by decide, by decide, by decide, ?_, ?_, ?_⟩
  · intro hnp
    by_cases hp : s = "plaintext"
    · subst hp
      decide
    · have hm : LANGUAGE_MAP s = none := by rw [hmap, if_neg hp]
      have hb : LANGUAGE_MAP_bracket s = JsBracketValue.undefined := by
        simp only [LANGUAGE_MAP_bracket, hm]
        rw [if_neg hnp]
      simp only [languageIdValue, hb, jsTruthyBracket, Bool.false_eq_true,
        if_false]
      decide
  · intro hp2
    have hpl : s ≠ "plaintext" := fun he => absurd (he ▸ hp2) (by decide)
    have hm : LANGUAGE_MAP s = none := by rw [hmap, if_neg hpl]
    have hb : LANGUAGE_MAP_bracket s = JsBracketValue.inherited s := by
      simp only [LANGUAGE_MAP_bracket, hm]
      rw [if_pos hp2]
    simp [languageIdValue, hb, jsTruthyBracket]
  · intro hnp
    by_cases hp : s = "plaintext"
    · subst hp
      decide
    · have hm : LANGUAGE_MAP s = none := by rw [hmap, if_neg hp]
      have hb : LANGUAGE_MAP_bracket s = JsBracketValue.undefined := by
        simp only [LANGUAGE_MAP_bracket, hm]
        rw [if_neg hnp]
      simp only [languageIdValue, hb, jsTruthyBracket, Bool.false_eq_true,
        if_false, languageIdOf, hm, jsOrNat]
      decide

/-- Witness for C1: "brainfuck" is neither a table key nor a prototype
member and falls back to 63; "toString" is a prototype member and yields
the inherited value. -/
theorem C1_language_map_proto_witness :
    languageIdValue "brainfuck" = JsBracketValue.num 63 ∧
    languageIdValue "toString" = JsBracketValue.inherited "toString" :=
  ⟨(C1_language_map_proto "brainfuck"
      (by decide)).2.2.2.2.2.2.2.2.2.2.2.1 (by decide),
   (C1_language_map_proto "toString"
      (by decide)).2.2.2.2.2.2.2.2.2.2.2.2.1 (by decide)⟩

/-- C2 (amended): on a terminal gateway response the normalized verdict has
no missing fields; `stdout`/`stderr`/`compile_output` equal the gateway's
value when present and `""` otherwise, `memory` equals the gateway's value
when present and `0` otherwise, and `time` equals the gateway's value when
present and nonempty, falling back to `"0"` when absent or empty. -/
theorem C2_verdict_defaults (r : PollResult) (_h : 3 ≤ r.status.id) :
    (normalizeVerdict r).stdout = r.stdout.getD "" ∧
    (normalizeVerdict r).stderr = r.stderr.getD "" ∧
    (normalizeVerdict r).compile_output = r.compile_output.getD "" ∧
    (normalizeVerdict r).memory = r.memory.getD 0 ∧
    ((r.time = none ∨ r.time = some "") → (normalizeVerdict r).time = "0") ∧
    (∀ t, r.time = some t → t ≠ "" → (normalizeVerdict r).time = t) := by
  refine ⟨?_, ?_, ?_, ?_, ?_, ?_⟩
  · cases hs : r.stdout <;> simp [normalizeVerdict, jsOrStr, hs]
    all_goals exact fun h => h.symm
  · cases hs : r.stderr <;> simp [normalizeVerdict, jsOrStr, hs]
    all_goals exact fun h => h.symm
  · cases hs : r.compile_output <;> simp [normalizeVerdict, jsOrStr, hs]
    all_goals exact fun h => h.symm
  · cases hs : r.memory <;> simp [normalizeVerdict, jsOrNat, hs]
    all_goals exact fun h => h.symm
  · rintro (ht | ht) <;> simp [normalizeVerdict, jsOrStr, ht]
  · intro t ht hne
    simp [normalizeVerdict, jsOrStr, ht, hne]

/-- Witness for C2 at a concrete terminal response whose `time` is present
and nonempty. -/
theorem C2_verdict_defaults_witness :
    (normalizeVerdict ⟨⟨3, "Accepted"⟩, some "hi", none, none, some "0.02",
        some 3328⟩).time = "0.02" :=
  (C2_verdict_defaults ⟨⟨3, "Accepted"⟩, some "hi", none, none, some "0.02",
      some 3328⟩ (by decide)).2.2.2.2.2 "0.02" rfl (by decide)

/-- Counterexample for C2 as stated: a terminal response whose `time` is
present but empty is normalized to `"0"`, not to the gateway's value. -/
theorem C2_time_counterexample :
    3 ≤ (⟨⟨3, "Accepted"⟩, none, none, none, some "", none⟩ :
        PollResult).status.id ∧
    (⟨⟨3, "Accepted"⟩, none, none, none, some "", none⟩ :
        PollResult).time = some "" ∧
    (normalizeVerdict ⟨⟨3, "Accepted"⟩, none, none, none, some "", none⟩).time
      = "0" ∧ ("0" : String) ≠ "" := by
  refine ⟨by decide, rfl, rfl, by decide⟩

/-- Each non-terminal iteration of the poll loop consumes at least 1000 ms,
so within a budget of `1000 * n` ms at most `n` polls happen and the loop
resolves to the timeout error when no poll is terminal. -/
theorem pollLoop_timeout_aux (env : Env) (token : String)
    (hp : ∀ i, env.pollOk i = true ∧ (env.pollResult i).status.id < 3) :
    ∀ n elapsed i, 10000 - elapsed ≤ 1000 * n →
      (pollLoop env token elapsed i).1 = Except.error "Execution timeout" ∧
      (pollLoop env token elapsed i).2.length ≤ n := by
  intro n
  induction n with
  | zero =>
      intro elapsed i hle
      have hge : ¬ elapsed < 10000 := by omega
      rw [pollLoop]
      simp [hge]
  | succ n ih =>
      intro elapsed i hle
      rw [pollLoop]
      by_cases hlt : elapsed < 10000
      · have hpi := hp i
        have hnt : ¬ 3 ≤ (env.pollResult i).status.id := by omega
        simp only [hlt, dite_true, hpi.1, if_true, hnt, if_false]
        have hrec := ih (elapsed + env.pollFetchTime i + 1000) (i + 1) (by omega)
        simpa using And.intro hrec.1 (by simpa using Nat.succ_le_succ hrec.2)
      · simp [hlt]

/-- C3: when every poll succeeds at HTTP level but never reports a terminal
status, the poll loop stops at the 10-second ceiling with the timeout
error, after at most ten polls. -/
theorem C3_poll_timeout (env : Env) (token : String)
    (hp : ∀ i, env.pollOk i = true ∧ (env.pollResult i).status.id < 3) :
    (pollLoop env token 0 0).1 = Except.error "Execution timeout" ∧
    (pollLoop env token 0 0).2.length ≤ 10 :=
  pollLoop_timeout_aux env token hp 10 0 0 (by omega)

/-- Witness for C3 on the always-running gateway. -/
theorem C3_poll_timeout_witness :
    (pollLoop timeoutEnv "T" 0 0).1 = Except.error "Execution timeout" ∧
    (pollLoop timeoutEnv "T" 0 0).2.length ≤ 10 :=
  C3_poll_timeout timeoutEnv "T" (fun i => ⟨rfl, by show (1 : Nat) < 3; decide⟩)

/-- C4: every response of the execute-code handler is either the success
verdict or the catch handler's verdict-shaped error object, whose
`status.description` is `"Runtime Error"` and whose `stderr` is populated;
and the client's `handleRunCode` catch branch renders any thrown error
into the same verdict shape. -/
theorem C4_error_shape (env : Env) (code language : String) :
    ((∃ v, (executeCode env code language).1 = RunResponse.success v) ∨
      (∃ msg, (executeCode env code language).1
          = RunResponse.failure (errorResponse msg) ∧
        (errorResponse msg).statusDescription = "Runtime Error" ∧
        (errorResponse msg).stderr = "Execution failed: " ++ msg ∧
        (errorResponse msg).stderr ≠ "")) ∧
    (∀ msg, handleRunCodeOutput (Except.error msg) =
      { stderr := some ("Execution failed: " ++ msg)
        statusDescription := some "Runtime Error" }) := by
  constructor
  · have hne : ∀ msg : String, "Execution failed: " ++ msg ≠ "" := by
      intro msg h
      have h2 := congrArg String.length h
      rw [String.length_append] at h2
      have h3 : ("Execution failed: " : String).length = 18 := rfl
      have h4 : ("" : String).length = 0 := rfl
      rw [h3, h4] at h2
      omega
    unfold executeCode
    by_cases hk : jsTruthyStr env.rapidApiKey
    · by_cases hsub : env.submissionOk
      · simp only [hk, if_true, hsub]
        cases hres : (pollLoop env env.token 0 0).1 with
        | ok p =>
            exact Or.inl ⟨normalizeVerdict p.1, by simp [hres]⟩
        | error msg =>
            exact Or.inr ⟨msg, by simp [hres], rfl, rfl, hne msg⟩
      · simp only [hk, if_true, hsub, if_false]
        exact Or.inr ⟨_, rfl, rfl, rfl, hne _⟩
    · simp only [hk, if_false]
      exact Or.inr ⟨_, rfl, rfl, rfl, hne _⟩
  · intro msg
    rfl

/-- C5: with the credential absent, the handler fails with the
configuration error and its network-call trace is empty — no submission
and no poll was issued. -/
theorem C5_config_error_before_network (env : Env) (code language : String)
    (hk : env.rapidApiKey = none) :
    executeCode env code language =
      (RunResponse.failure (errorResponse "RAPIDAPI_KEY not configured"), []) := by
  simp [executeCode, jsTruthyStr, hk]

/-- Witness for C5 on the credential-less environment. -/
theorem C5_config_error_before_network_witness :
    executeCode noKeyEnv "print(1)" "python" =
      (RunResponse.failure (errorResponse "RAPIDAPI_KEY not configured"), []) :=
  C5_config_error_before_network noKeyEnv "print(1)" "python" rfl

/-- C6: on the hello-world scenario the poll loop returns the second poll's
verdict after exactly one sleep, and the handler emits that verdict with
its present fields unchanged (absent fields defaulted), having issued the
submission and exactly two polls. -/
theorem C6_scenario :
    (pollLoop scenarioEnv "T1" 0 0).1 = Except.ok (scenarioPoll1, 1) ∧
    executeCode scenarioEnv "print(\x27Hello, World!\x27)" "python" =
      (RunResponse.success
        { stdout := "Hello, World!\n", stderr := "", compile_output := ""
          time := "0.02", memory := 3328, statusDescription := "Accepted" },
       [NetworkCall.submit "print(\x27Hello, World!\x27)" 71,
        NetworkCall.poll "T1" 0, NetworkCall.poll "T1" 1]) := by
  have h1 : pollLoop scenarioEnv "T1" 1000 1 =
      (Except.ok (scenarioPoll1, 1), [NetworkCall.poll "T1" 1]) := by
    rw [pollLoop]
    simp [show scenarioEnv.pollOk 1 = true from rfl,
      show scenarioEnv.pollResult 1 = scenarioPoll1 from rfl,
      show scenarioPoll1.status.id = 3 from rfl]
  have h0 : pollLoop scenarioEnv "T1" 0 0 =
      (Except.ok (scenarioPoll1, 1),
       [NetworkCall.poll "T1" 0, NetworkCall.poll "T1" 1]) := by
    rw [pollLoop]
    simp [show scenarioEnv.pollOk 0 = true from rfl,
      show scenarioEnv.pollResult 0 = scenarioPoll0 from rfl,
      show scenarioPoll0.status.id = 1 from rfl,
      show scenarioEnv.pollFetchTime 0 = 0 from rfl, h1]
  refine ⟨by rw [h0], ?_⟩
  have hnorm : normalizeVerdict scenarioPoll1 =
      { stdout := "Hello, World!\n", stderr := "", compile_output := ""
        time := "0.02", memory := 3328, statusDescription := "Accepted" } := by
    simp [normalizeVerdict, scenarioPoll1, jsOrStr, jsOrNat]
  simp only [executeCode,
    show jsTruthyStr scenarioEnv.rapidApiKey = true from rfl,
    show scenarioEnv.submissionOk = true from rfl,
    show scenarioEnv.token = "T1" from rfl,
    show languageIdOf "python" = 71 from rfl,
    h0, hnorm, if_true]

/-- C7: when the closed tab is the active one, the new active file is the
last element of the remaining ordered tab list — the most-recently-opened
remaining tab — and no file is active when no tab remains. -/
theorem C7_tab_close_selects_last (s : EditorState) (f : CodeFile)
    (hactive : s.activeFile = some f) :
    (handleTabClose s f.id).activeFile =
      (s.openTabs.filter (fun tab => tab.id ≠ f.id)).getLast? ∧
    (s.openTabs = [f] → (handleTabClose s f.id).activeFile = none) := by
  constructor
  · simp only [handleTabClose, hactive]
    rw [if_pos trivial]
    by_cases hl : (s.openTabs.filter (fun tab => tab.id ≠ f.id)).length > 0
    · rw [if_pos hl]
    · have hnil : s.openTabs.filter (fun tab => tab.id ≠ f.id) = [] :=
        List.length_eq_zero.mp (by omega)
      rw [if_neg hl, hnil]
      rfl
  · intro honly
    simp [handleTabClose, hactive, honly]

/-- Witness for C7: closing the active third tab of three selects the tab
opened immediately before it; closing the only tab selects none. -/
theorem C7_tab_close_selects_last_witness :
    (handleTabClose threeTabState tabC.id).activeFile = some tabB ∧
    (handleTabClose singleTabState tabC.id).activeFile = none :=
  ⟨((C7_tab_close_selects_last threeTabState tabC rfl).1).trans (by decide),
   (C7_tab_close_selects_last singleTabState tabC rfl).2 rfl⟩

/-- C8: a content edit with an active file updates the active file and
propagates the new content by id match into both the file collection and
the open-tab list: positionally, every same-id entry afterwards carries
the new content and every other-id entry is unchanged in all fields. -/
theorem C8_edit_propagates (s : EditorState) (active : CodeFile) (v : String)
    (hactive : s.activeFile = some active) :
    ((handleEditorChange s (some v)).activeFile
        = some { active with content := v }) ∧
    (∀ (i : Nat) (f0 : CodeFile), s.files[i]? = some f0 →
      ∃ f1, (handleEditorChange s (some v)).files[i]? = some f1 ∧
        (f0.id = active.id → f1.content = v) ∧
        (f0.id ≠ active.id → f1 = f0)) ∧
    (∀ (i : Nat) (f0 : CodeFile), s.openTabs[i]? = some f0 →
      ∃ f1, (handleEditorChange s (some v)).openTabs[i]? = some f1 ∧
        (f0.id = active.id → f1.content = v) ∧
        (f0.id ≠ active.id → f1 = f0)) := by
  refine ⟨by simp [handleEditorChange, hactive], ?_, ?_⟩ <;>
  · intro i f0 h0
    refine ⟨if f0.id = active.id then { active with content := v } else f0,
      ?_, ?_, ?_⟩
    · simp only [handleEditorChange, hactive]
      rw [List.getElem?_map, h0]
      rfl
    · intro he
      simp [he]
    · intro hne
      simp [hne]

/-- Witness for C8 on the two-file scenario. -/
theorem C8_edit_propagates_witness :
    (handleEditorChange editScenario (some "v2")).activeFile
        = some { tabA with content := "v2" } ∧
    (∃ f1, (handleEditorChange editScenario (some "v2")).files[0]? = some f1 ∧
      (tabA.id = tabA.id → f1.content = "v2") ∧
      (tabA.id ≠ tabA.id → f1 = tabA)) ∧
    (∃ f1, (handleEditorChange editScenario (some "v2")).files[1]? = some f1 ∧
      (tabB.id = tabA.id → f1.content = "v2") ∧
      (tabB.id ≠ tabA.id → f1 = tabB)) :=
  ⟨(C8_edit_propagates editScenario tabA "v2" rfl).1,
   (C8_edit_propagates editScenario tabA "v2" rfl).2.1 0 tabA rfl,
   (C8_edit_propagates editScenario tabA "v2" rfl).2.1 1 tabB rfl⟩

/-- C10: no two open tabs ever share a file id.  Selecting an already-open
file keeps the tab list unchanged and only activates it; selection of a
new file, tab closing and content edits all preserve distinctness of the
tab ids (edits leave the id sequence untouched). -/
theorem C10_tab_ids_distinct (s : EditorState) (f : CodeFile)
    (fileId : String) (v : Option String)
    (hnodup : (s.openTabs.map (fun tab => tab.id)).Nodup) :
    ((handleFileSelect s f).openTabs.map (fun tab => tab.id)).Nodup ∧
    ((∃ tab ∈ s.openTabs, tab.id = f.id) →
      (handleFileSelect s f).openTabs = s.openTabs ∧
      (handleFileSelect s f).activeFile = some f) ∧
    ((handleTabClose s fileId).openTabs.map (fun tab => tab.id)).Nodup ∧
    ((handleEditorChange s v).openTabs.map (fun tab => tab.id)
        = s.openTabs.map (fun tab => tab.id)) ∧
    ((handleEditorChange s v).openTabs.map (fun tab => tab.id)).Nodup := by
  have hedit : (handleEditorChange s v).openTabs.map (fun tab => tab.id)
      = s.openTabs.map (fun tab => tab.id) := by
    match hs : s.activeFile, hv : v with
    | some active, some w =>
        simp only [handleEditorChange, hs, List.map_map]
        refine List.map_congr_left ?_
        intro tab _
        by_cases hid : tab.id = active.id <;> simp [hid]
    | some active, none => simp [handleEditorChange, hs]
    | none, some w => simp [handleEditorChange, hs]
    | none, none => simp [handleEditorChange, hs]
  refine ⟨?_, ?_, ?_, hedit, hedit ▸ hnodup⟩
  · by_cases hf : (s.openTabs.find? (fun tab => tab.id = f.id)).isSome
    · simpa [handleFileSelect, hf] using hnodup
    · have hf2 : s.openTabs.find? (fun tab => tab.id = f.id) = none :=
        Option.not_isSome_iff_eq_none.mp hf
      have hnone := List.find?_eq_none.mp hf2
      simp only [handleFileSelect, hf2, Option.isSome_none, Bool.false_eq_true,
        if_false, List.map_append, List.map_cons, List.map_nil]
      rw [List.nodup_append]
      refine ⟨hnodup, List.nodup_singleton _, ?_⟩
      intro x hx
      obtain ⟨tab, htab, hxid⟩ := List.mem_map.mp hx
      have := hnone tab htab
      simp only [decide_eq_true_eq] at this
      simp [← hxid, this]
  · intro ⟨tab, htab, hid⟩
    have hfound : (s.openTabs.find? (fun tab => tab.id = f.id)).isSome :=
      List.find?_isSome.mpr ⟨tab, htab, by simp [hid]⟩
    simp [handleFileSelect, hfound]
  · simp only [handleTabClose]
    exact hnodup.sublist (List.Sublist.map _ (List.filter_sublist _))

/-- Witness for C10 on the three-tab state: re-selecting the open tab B
leaves the tabs unchanged, and all operations keep the ids distinct. -/
theorem C10_tab_ids_distinct_witness :
    ((handleFileSelect threeTabState tabB).openTabs.map
        (fun tab => tab.id)).Nodup ∧
    (handleFileSelect threeTabState tabB).openTabs = threeTabState.openTabs ∧
    (handleFileSelect threeTabState tabB).activeFile = some tabB ∧
    ((handleTabClose threeTabState tabB.id).openTabs.map
        (fun tab => tab.id)).Nodup := by
  have h := C10_tab_ids_distinct threeTabState tabB tabB.id (some "w")
    (by decide)
  have h2 := h.2.1 ⟨tabB, by decide, rfl⟩
  exact ⟨h.1, h2.1, h2.2, h.2.2.1⟩

/-- `splitAtFolder` decomposes the children list around the located
folder. -/
theorem splitAtFolder_eq (seg : String) :
    ∀ (l pre : List TreeNode) (p : String) (cs post : List TreeNode),
      splitAtFolder seg l = some (pre, p, cs, post) →
      l = pre ++ TreeNode.folder seg p cs :: post := by
  intro l
  induction l with
  | nil =>
      intro pre p cs post h
      simp [splitAtFolder] at h
  | cons c rest ih =>
      intro pre p cs post h
      cases c with
      | folder n np ncs =>
          by_cases hn : n = seg
          · subst hn
            simp only [splitAtFolder, eq_self_iff_true, if_true,
              Option.some.injEq, Prod.mk.injEq] at h
            obtain ⟨h1, h2, h3, h4⟩ := h
            subst h1; subst h2; subst h3; subst h4
            simp
          · simp only [splitAtFolder, if_neg hn] at h
            cases hrec : splitAtFolder seg rest with
            | none => rw [hrec] at h; cases h
            | some q =>
                obtain ⟨pre2, p2, cs2, post2⟩ := q
                rw [hrec] at h
                simp only [Option.some.injEq, Prod.mk.injEq] at h
                obtain ⟨h1, h2, h3, h4⟩ := h
                subst h1; subst h2; subst h3; subst h4
                rw [ih pre2 p2 cs2 post2 hrec]
                simp
      | file n np nf =>
          simp only [splitAtFolder] at h
          cases hrec : splitAtFolder seg rest with
          | none => rw [hrec] at h; cases h
          | some q =>
              obtain ⟨pre2, p2, cs2, post2⟩ := q
              rw [hrec] at h
              simp only [Option.some.injEq, Prod.mk.injEq] at h
              obtain ⟨h1, h2, h3, h4⟩ := h
              subst h1; subst h2; subst h3; subst h4
              rw [ih pre2 p2 cs2 post2 hrec]
              simp

/-- A file leaf reachable inside `insertPath fn segs curPath children` was
already reachable inside `children`, unless it is `fn` itself. -/
theorem fileIn_insertPath (fn : TreeNode) (f : CodeFile) :
    ∀ (segs : List String) (curPath : String) (children : List TreeNode),
      (∃ c ∈ insertPath fn segs curPath children, FileNodeIn f c) →
      (∃ c ∈ children, FileNodeIn f c) ∨ FileNodeIn f fn := by
  intro segs
  induction segs with
  | nil =>
      rintro curPath children ⟨c, hc, hf⟩
      simp only [insertPath, List.mem_append, List.mem_singleton] at hc
      rcases hc with hc | hc
      · exact Or.inl ⟨c, hc, hf⟩
      · subst hc
        exact Or.inr hf
  | cons seg rest ih =>
      rintro curPath children ⟨c, hc, hf⟩
      simp only [insertPath] at hc
      cases hsp : splitAtFolder seg children with
      | none =>
          rw [hsp] at hc
          simp only [List.mem_append, List.mem_singleton] at hc
          rcases hc with hc | hc
          · exact Or.inl ⟨c, hc, hf⟩
          · subst hc
            cases hf with
            | there _ _ _ c2 hc2 hf2 =>
                rcases ih _ [] ⟨c2, hc2, hf2⟩ with ⟨c3, hc3, _⟩ | h
                · simp at hc3
                · exact Or.inr h
      | some q =>
          obtain ⟨pre, p, cs, post⟩ := q
          rw [hsp] at hc
          have hdecomp := splitAtFolder_eq seg children pre p cs post hsp
          simp only [List.mem_append, List.mem_cons] at hc
          rcases hc with hc | hc | hc
          · exact Or.inl ⟨c, by rw [hdecomp]; simp [hc], hf⟩
          · subst hc
            cases hf with
            | there _ _ _ c2 hc2 hf2 =>
                rcases ih _ cs ⟨c2, hc2, hf2⟩ with ⟨c3, hc3, hf3⟩ | h
                · exact Or.inl ⟨TreeNode.folder seg p cs, by rw [hdecomp]; simp,
                    FileNodeIn.there _ _ _ c3 hc3 hf3⟩
                · exact Or.inr h
          · exact Or.inl ⟨c, by rw [hdecomp]; simp [hc], hf⟩

/-- A file leaf reachable inside the sorted forest was reachable inside
the unsorted one: sorting only permutes children lists. -/
theorem fileIn_sortNodes (f : CodeFile) :
    ∀ l : List TreeNode, (∃ c ∈ sortNodes l, FileNodeIn f c) →
      ∃ c ∈ l, FileNodeIn f c := by
  intro l
  induction l using sortNodes.induct with
  | case1 =>
      rintro ⟨c, hc, _⟩
      simp [sortNodes] at hc
  | case2 n p f0 rest ih =>
      rintro ⟨c, hc, hf⟩
      simp only [sortNodes, List.mem_cons] at hc
      rcases hc with hc | hc
      · exact ⟨c, by simp [hc], hf⟩
      · obtain ⟨c3, hc3, hf3⟩ := ih ⟨c, hc, hf⟩
        exact ⟨c3, by simp [hc3], hf3⟩
  | case3 n p cs rest ihcs ihrest =>
      rintro ⟨c, hc, hf⟩
      simp only [sortNodes, List.mem_cons] at hc
      rcases hc with hc | hc
      · subst hc
        cases hf with
        | there _ _ _ c2 hc2 hf2 =>
            rw [List.mem_insertionSort] at hc2
            obtain ⟨c3, hc3, hf3⟩ := ihcs ⟨c2, hc2, hf2⟩
            exact ⟨TreeNode.folder n p cs, by simp,
              FileNodeIn.there _ _ _ c3 hc3 hf3⟩
      · obtain ⟨c3, hc3, hf3⟩ := ihrest ⟨c, hc, hf⟩
        exact ⟨c3, by simp [hc3], hf3⟩

/-- Folding `addFile` never creates a leaf for a `.keep` placeholder: any
file reachable in the result was reachable in the accumulator or has a
path not ending in `/.keep`. -/
theorem fileIn_foldl_addFile (f : CodeFile) :
    ∀ (files : List CodeFile) (acc : List TreeNode),
      (∃ c ∈ files.foldl addFile acc, FileNodeIn f c) →
      (∃ c ∈ acc, FileNodeIn f c) ∨ strEndsWith f.path "/.keep" = false := by
  intro files
  induction files with
  | nil =>
      intro acc h
      exact Or.inl h
  | cons f0 fs ih =>
      intro acc h
      rcases ih (addFile acc f0) h with h2 | h2
      · by_cases hk : strEndsWith f0.path "/.keep"
        · simp only [addFile, hk, if_true] at h2
          exact Or.inl h2
        · simp only [addFile, hk, Bool.false_eq_true, if_false] at h2
          rcases fileIn_insertPath _ f _ _ _ h2 with h3 | h3
          · exact Or.inl h3
          · cases h3
            exact Or.inr (by simpa using hk)
      · exact Or.inr h2

/-- Every node of the sorted forest has sorted children, recursively. -/
theorem childrenSorted_sortNodes :
    ∀ l : List TreeNode, ∀ c ∈ sortNodes l, ChildrenSorted c := by
  intro l
  induction l using sortNodes.induct with
  | case1 =>
      intro c hc
      simp [sortNodes] at hc
  | case2 n p f0 rest ih =>
      intro c hc
      simp only [sortNodes, List.mem_cons] at hc
      rcases hc with hc | hc
      · subst hc
        exact ChildrenSorted.file n p f0
      · exact ih c hc
  | case3 n p cs rest ihcs ihrest =>
      intro c hc
      simp only [sortNodes, List.mem_cons] at hc
      rcases hc with hc | hc
      · subst hc
        refine ChildrenSorted.folder _ _ _
          (List.sorted_insertionSort NodeLe (sortNodes cs)) ?_
        intro c2 hc2
        rw [List.mem_insertionSort] at hc2
        exact ihcs c2 hc2
      · exact ihrest c hc

/-- C9: the rebuilt display tree has no leaf for any file whose path ends
in the reserved `/.keep` marker, and every children list is sorted with
folders before files and each group alphabetically by name. -/
theorem C9_tree_shape (allFiles : List CodeFile) :
    (∀ f : CodeFile, strEndsWith f.path "/.keep" = true →
      ¬ FileNodeIn f (buildTree allFiles)) ∧
    ChildrenSorted (buildTree allFiles) := by
  constructor
  · intro f hk hin
    simp only [buildTree] at hin
    cases hin with
    | there _ _ _ c hc hf =>
        rw [List.mem_insertionSort] at hc
        have h3 := fileIn_sortNodes f _ ⟨c, hc, hf⟩
        rcases fileIn_foldl_addFile f allFiles [] h3 with ⟨c4, hc4, _⟩ | h4
        · simp at hc4
        · rw [hk] at h4
          cases h4
  · simp only [buildTree]
    refine ChildrenSorted.folder _ _ _
      (List.sorted_insertionSort NodeLe _) ?_
    intro c hc
    rw [List.mem_insertionSort] at hc
    exact childrenSorted_sortNodes _ c hc

/-- Witness for C9: the `.keep` placeholder under `/docs` is absent from
the tree built over a two-file list, and that tree is fully sorted. -/
theorem C9_tree_shape_witness :
    ¬ FileNodeIn keepFile (buildTree [mainFile, keepFile]) ∧
    ChildrenSorted (buildTree [mainFile, keepFile]) :=
  ⟨(C9_tree_shape [mainFile, keepFile]).1 keepFile (by decide),
   (C9_tree_shape [mainFile, keepFile]).2⟩
